import Mathlib

/-!
Verification of the xtrans-s peer-to-peer transfer core against its design
specification.  The TypeScript sources are shallowly embedded: byte buffers
become `List Nat` (each entry a byte value), JavaScript strings become
`List Char` or `String`, fallible operations return `Option`/`Except`, and
the browser built-ins used by the code (`TextEncoder`/`TextDecoder`,
`atob`, `JSON.parse`) are modelled as executable Lean functions.
-/

set_option maxRecDepth 10000

namespace XtransS

/-! ## Byte-level utilities -/

/-- Big-endian 4-byte encoding of a 32-bit value, as `DataView.setUint32`
writes it (the value is reduced mod 2^32 by the caller). -/
def be32 (n : Nat) : List Nat :=
  [n / 16777216 % 256, n / 65536 % 256, n / 256 % 256, n % 256]

/-- Big-endian 4-byte read at offset `i`, as `DataView.getUint32(i, false)`.
All call sites in the source guard the buffer length, so the
out-of-range value is immaterial and modelled as 0. -/
def readBE32 (data : List Nat) (i : Nat) : Nat :=
  match data.drop i with
  | b0 :: b1 :: b2 :: b3 :: _ => ((b0 * 256 + b1) * 256 + b2) * 256 + b3
  | _ => 0

/-! ## UTF-8 model (`TextEncoder` / `TextDecoder`) -/

/-- UTF-8 encoding of one Unicode scalar value (`TextEncoder` on one char). -/
def utf8EncodeChar (c : Char) : List Nat :=
  let n := c.toNat
  if n < 128 then [n]
  else if n < 2048 then [192 + n / 64, 128 + n % 64]
  else if n < 65536 then [224 + n / 4096, 128 + n / 64 % 64, 128 + n % 64]
  else [240 + n / 262144, 128 + n / 4096 % 64, 128 + n / 64 % 64, 128 + n % 64]

/-- UTF-8 encoding of a character sequence (`TextEncoder.encode`). -/
def utf8Encode (s : List Char) : List Nat :=
  (s.map utf8EncodeChar).flatten

/-- The replacement character U+FFFD emitted by `TextDecoder` (non-fatal
mode) on malformed input. -/
def replChar : Char := Char.ofNat 65533

/-- Lower bound for the second byte of a multi-byte UTF-8 sequence. -/
def utf8Lo (b : Nat) : Nat :=
  if b = 224 then 160 else if b = 240 then 144 else 128

/-- Upper bound for the second byte of a multi-byte UTF-8 sequence. -/
def utf8Hi (b : Nat) : Nat :=
  if b = 237 then 159 else if b = 244 then 143 else 191

/-- Is `b` a UTF-8 continuation byte? -/
def utf8Cont (b : Nat) : Bool :=
  128 ≤ b && b ≤ 191

/-- Fuel-driven body of the UTF-8 decoder; every step consumes at least one
byte, so fuel equal to the buffer length is always enough. -/
def utf8DecodeGo : Nat → List Nat → List Char
  | _, [] => []
  | 0, _ :: _ => []
  | f + 1, b :: rest =>
    if b < 128 then Char.ofNat b :: utf8DecodeGo f rest
    else if 194 ≤ b ∧ b ≤ 223 then
      match rest with
      | b2 :: rest2 =>
        if utf8Cont b2 then
          Char.ofNat ((b - 192) * 64 + (b2 - 128)) :: utf8DecodeGo f rest2
        else replChar :: utf8DecodeGo f rest
      | [] => [replChar]
    else if 224 ≤ b ∧ b ≤ 239 then
      match rest with
      | b2 :: b3 :: rest3 =>
        if utf8Lo b ≤ b2 ∧ b2 ≤ utf8Hi b ∧ utf8Cont b3 then
          Char.ofNat ((b - 224) * 4096 + (b2 - 128) * 64 + (b3 - 128)) ::
            utf8DecodeGo f rest3
        else replChar :: utf8DecodeGo f rest
      | _ => replChar :: utf8DecodeGo f rest
    else if 240 ≤ b ∧ b ≤ 244 then
      match rest with
      | b2 :: b3 :: b4 :: rest4 =>
        if utf8Lo b ≤ b2 ∧ b2 ≤ utf8Hi b ∧ utf8Cont b3 ∧ utf8Cont b4 then
          Char.ofNat ((b - 240) * 262144 + (b2 - 128) * 4096 +
              (b3 - 128) * 64 + (b4 - 128)) :: utf8DecodeGo f rest4
        else replChar :: utf8DecodeGo f rest
      | _ => replChar :: utf8DecodeGo f rest
    else replChar :: utf8DecodeGo f rest

/-- Total UTF-8 decoder modelling `TextDecoder.decode` in its default
non-fatal mode: well-formed sequences decode to their scalar value, and a
malformed leading sequence yields U+FFFD and resumes after the offending
byte. -/
def utf8Decode (l : List Nat) : List Char :=
  utf8DecodeGo l.length l

/-! ## String helpers mirroring the JavaScript ones used by the source -/

/-- `String.prototype.padEnd(n, c)` for a single-character pad. -/
def padEnd (s : List Char) (n : Nat) (c : Char) : List Char :=
  s ++ List.replicate (n - s.length) c

/-- `.replace(/\0+$/, '')`: strip the trailing run of NUL characters. -/
def stripTrailingNulls (s : List Char) : List Char :=
  (s.reverse.dropWhile (fun c => c = Char.ofNat 0)).reverse

/-! ## PacketFramer (`createPacketHeader` / `parsePacketHeader`)

Embeds the binary chunk wire format of `webrtc.ts`: a 44-byte header
(4-byte big-endian magic, 36-byte NUL-padded fileId, 4-byte big-endian
chunkIndex) followed by the raw payload. -/

/-- Magic number "BDTL". -/
def PACKET_MAGIC : Nat := 0x4244544C

/-- Header size: magic(4) + fileId(36) + chunkIndex(4). -/
def HEADER_SIZE : Nat := 44

/-- File chunk size used by `sendFile` (16 KiB). -/
def CHUNK_SIZE : Nat := 16 * 1024

/-- The only way header construction can fail: `Uint8Array.set` throws a
`RangeError` when the encoded fileId overflows the 44-byte buffer. -/
inductive FrameErr
  | rangeErr
deriving DecidableEq

/-- `createPacketHeader(fileId, chunkIndex)`: a 44-byte zero-initialised
buffer receives the big-endian magic at offset 0, then the UTF-8 bytes of
`fileId.padEnd(36, '\0')` at offset 4 (throwing `RangeError` when they do
not fit in the remaining 40 bytes), then the big-endian chunkIndex at
offset 40 — overwriting any fileId bytes that spilled past offset 39. -/
def createPacketHeader (fileId : List Char) (chunkIndex : Nat) :
    Except FrameErr (List Nat) :=
  let fileIdBytes := utf8Encode (padEnd fileId 36 (Char.ofNat 0))
  if 40 < fileIdBytes.length then .error .rangeErr
  else
    .ok (be32 PACKET_MAGIC ++ (fileIdBytes ++ List.replicate 36 0).take 36 ++
      be32 (chunkIndex % 4294967296))

/-- The full frame sent for one chunk in `sendFile`: header then payload. -/
def encodePacket (fileId : List Char) (chunkIndex : Nat)
    (payload : List Nat) : Except FrameErr (List Nat) :=
  (createPacketHeader fileId chunkIndex).map (fun h => h ++ payload)

/-- `parsePacketHeader(data)`: `null` when the buffer is shorter than 44
bytes or the magic mismatches; otherwise the fileId (UTF-8 decoded, with
trailing NULs stripped) and the big-endian chunkIndex. -/
def parsePacketHeader (data : List Nat) : Option (List Char × Nat) :=
  if data.length < HEADER_SIZE then none
  else
    let magic := readBE32 data 0
    if magic ≠ PACKET_MAGIC then none
    else
      let fileIdBytes := (data.drop 4).take 36
      let fileId := stripTrailingNulls (utf8Decode fileIdBytes)
      some (fileId, readBE32 data 40)

/-- The successfully framed path of `P2PConnection.handleMessage` on binary
data: parse the header and slice the payload off at `HEADER_SIZE`. -/
def decodePacket (data : List Nat) : Option (List Char × Nat × List Nat) :=
  (parsePacketHeader data).map (fun p => (p.1, p.2, data.drop HEADER_SIZE))

/-- The complete binary branch of `handleMessage`: an unparsable buffer is
not dropped but becomes a chunk with empty fileId and index 0. -/
def handleBinaryMessage (data : List Nat) : List Char × Nat × List Nat :=
  match parsePacketHeader data with
  | some (fid, ci) => (fid, ci, data.drop HEADER_SIZE)
  | none => ([], 0, data)

/-! ## SDPCompressor (`sdp-compressor.ts`)

The LZ-String library is an external dependency, so `compress` /
`decompress` are parametric in the codec pair (`lz`, `unlz`); theorems
assume the library's round-trip contract where needed. -/

/-- `String.prototype.startsWith(pat)` on character lists. -/
def leadsWith : List Char → List Char → Bool
  | [], _ => true
  | _ :: _, [] => false
  | p :: ps, c :: cs => p == c && leadsWith ps cs

/-- `String.prototype.includes(pat)` on character lists. -/
def hasSub (pat : List Char) : List Char → Bool
  | [] => leadsWith pat []
  | c :: cs => leadsWith pat (c :: cs) || hasSub pat cs

/-- `sdp.split('\n')`: splitting on a literal newline, JavaScript style
(the empty string splits to `[""]`). -/
def splitNl : List Char → List (List Char)
  | [] => [[]]
  | c :: cs =>
    if c = '\n' then [] :: splitNl cs
    else
      match splitNl cs with
      | [] => [[c]]
      | l :: ls => (c :: l) :: ls

/-- `lines.join('\n')`. -/
def joinNl : List (List Char) → List Char
  | [] => []
  | [l] => l
  | l :: ls => l ++ '\n' :: joinNl ls

/-- Line marker of an ICE candidate. -/
def candTag : List Char := ['a', '=', 'c', 'a', 'n', 'd', 'i', 'd', 'a', 't', 'e', ':']

/-- Substring marking a host candidate. -/
def typHost : List Char := ['t', 'y', 'p', ' ', 'h', 'o', 's', 't']

/-- Substring marking a server-reflexive candidate. -/
def typSrflx : List Char := ['t', 'y', 'p', ' ', 's', 'r', 'f', 'l', 'x']

/-- Substring marking a relay candidate. -/
def typRelay : List Char := ['t', 'y', 'p', ' ', 'r', 'e', 'l', 'a', 'y']

/-- The filter body of `optimizeSDP`, with the mutable `hostCount` closure
variable made an explicit accumulator.  For a candidate line: host lines
increment the counter and survive only while it stays ≤ 2; srflx and relay
lines always survive; every other candidate line is dropped.  Non-candidate
lines always survive. -/
def optimizeLines : Nat → List (List Char) → List (List Char)
  | _, [] => []
  | hostCount, line :: rest =>
    if leadsWith candTag line then
      if hasSub typHost line then
        if hostCount + 1 ≤ 2 then line :: optimizeLines (hostCount + 1) rest
        else optimizeLines (hostCount + 1) rest
      else if hasSub typSrflx line then line :: optimizeLines hostCount rest
      else if hasSub typRelay line then line :: optimizeLines hostCount rest
      else optimizeLines hostCount rest
    else line :: optimizeLines hostCount rest

/-- `SDPCompressor.optimizeSDP`: prune redundant ICE candidate lines. -/
def optimizeSDP (sdp : List Char) : List Char :=
  joinNl (optimizeLines 0 (splitNl sdp))

/-- Current format version tag "X1:". -/
def versionTag : List Char := ['X', '1', ':']

/-- Legacy format tag "XTRANS:". -/
def legacyTag : List Char := ['X', 'T', 'R', 'A', 'N', 'S', ':']

/-- `SDPCompressor.compress`: prune, LZ-compress, prepend the version tag. -/
def compress (lz : List Char → List Char) (sdp : List Char) : List Char :=
  versionTag ++ lz (optimizeSDP sdp)

/-- Base64 value of one character, `atob`'s alphabet. -/
def b64Val (c : Char) : Option Nat :=
  let n := c.toNat
  if 65 ≤ n ∧ n ≤ 90 then some (n - 65)
  else if 97 ≤ n ∧ n ≤ 122 then some (n - 97 + 26)
  else if 48 ≤ n ∧ n ≤ 57 then some (n - 48 + 52)
  else if c = '+' then some 62
  else if c = '/' then some 63
  else none

/-- ASCII whitespace removed by forgiving-base64 decoding. -/
def isB64Ws (c : Char) : Bool :=
  c = ' ' || c = '\t' || c = '\n' || c = Char.ofNat 12 || c = '\r'

/-- Regroup 6-bit values into 8-bit bytes (a validated base64 body has no
remainder of 1). -/
def b64Go : List Nat → List Nat
  | v1 :: v2 :: v3 :: v4 :: rest =>
    (v1 * 4 + v2 / 16) :: (v2 % 16 * 16 + v3 / 4) :: (v3 % 4 * 64 + v4) ::
      b64Go rest
  | [v1, v2, v3] => [v1 * 4 + v2 / 16, v2 % 16 * 16 + v3 / 4]
  | [v1, v2] => [v1 * 4 + v2 / 16]
  | _ => []

/-- `atob`: the WHATWG forgiving-base64 decode — strip ASCII whitespace,
strip up to two trailing `=` when the length is a multiple of 4, reject a
length ≡ 1 (mod 4) and any character outside the alphabet. -/
def atobDecode (s : List Char) : Option (List Nat) :=
  let s1 := s.filter (fun c => !(isB64Ws c))
  let r := s1.reverse
  let r2 := if s1.length % 4 = 0 then
      match r with
      | '=' :: '=' :: t => t
      | '=' :: t => t
      | t => t
    else r
  let s2 := r2.reverse
  if s2.length % 4 = 1 then none
  else (s2.mapM b64Val).map b64Go

/-- `SDPCompressor.decompressLegacy`: base64-decode the payload after the
legacy tag and UTF-8 decode the resulting bytes; `null` on a malformed
base64 payload (the `atob` throw is caught). -/
def decompressLegacy (code : List Char) : Option (List Char) :=
  match atobDecode (code.drop legacyTag.length) with
  | some bytes => some (utf8Decode bytes)
  | none => none

/-- Whitespace removed by `String.prototype.trim`. -/
def isJsWs (c : Char) : Bool :=
  c = ' ' || c = '\t' || c = '\n' || c = '\r' || c = Char.ofNat 11 ||
    c = Char.ofNat 12 || c = Char.ofNat 160 || c = Char.ofNat 65279

/-- `String.prototype.trim`. -/
def trimJs (s : List Char) : List Char :=
  ((s.dropWhile isJsWs).reverse.dropWhile isJsWs).reverse

/-- `SDPCompressor.decompress`: the versioned form is LZ-decompressed (a
falsy — null or empty — result is a failure), the legacy form is
base64-decoded, a trimmed code starting with a brace passes through
trimmed, and anything else yields `null` (the `DecodeError`). -/
def decompress (unlz : List Char → Option (List Char))
    (code : List Char) : Option (List Char) :=
  if leadsWith versionTag code then
    match unlz (code.drop versionTag.length) with
    | some (c :: cs) => some (c :: cs)
    | _ => none
  else if leadsWith legacyTag code then
    decompressLegacy code
  else if (trimJs code).head? = some (Char.ofNat 123) then
    some (trimJs code)
  else
    none

/-- Identity LZ codec: used to instantiate codec-parametric statements. -/
def idLz (s : List Char) : List Char := s

/-- Inverse of `idLz`, always succeeding. -/
def idUnlz (s : List Char) : Option (List Char) := some s

/-- A session description consisting of a single candidate line that the
pruning step drops entirely (peer-reflexive type). -/
def sampleNoKeep : List Char :=
  "a=candidate:1 2 typ prflx".toList

/-- A small session description whose pruned form is non-empty. -/
def sampleSdp : List Char :=
  "v=0\na=candidate:1 typ host".toList

/-! ## JavaScript value model and `JSON.parse`

`HybridConnectionManager.getMessageType` takes an arbitrary JavaScript
value.  The model distinguishes the shapes the function branches on:
strings, objects (with insertion-ordered fields, later duplicates
winning), arrays, numbers (kept as their literal token — no claim inspects
the numeric value), booleans, `null`, and opaque binary buffers. -/

inductive JsVal where
  | vnull
  | vbool (b : Bool)
  | vnum (lit : List Char)
  | vstr (s : List Char)
  | varr (xs : List JsVal)
  | vobj (fields : List (List Char × JsVal))
  | vbin (bytes : List Nat)

/-- Property access `v[key]`: `undefined` (`none`) on non-objects; the
last binding wins for duplicate keys, as in JavaScript objects. -/
def getProp (v : JsVal) (key : List Char) : Option JsVal :=
  match v with
  | .vobj fields => (fields.reverse.find? (fun f => f.1 == key)).map (fun f => f.2)
  | _ => none

/-- `key in v` for the object shapes. -/
def hasProp (v : JsVal) (key : List Char) : Bool :=
  match v with
  | .vobj fields => fields.any (fun f => f.1 == key)
  | _ => false

/-- `message && typeof message === 'object'`: `null` is of object type but
falsy, so only objects, arrays and binary buffers qualify. -/
def isTruthyObject (v : JsVal) : Bool :=
  match v with
  | .vobj _ => true
  | .varr _ => true
  | .vbin _ => true
  | _ => false

/-- Opening brace character. -/
def braceL : Char := Char.ofNat 123

/-- Closing brace character. -/
def braceR : Char := Char.ofNat 125

/-- JSON insignificant whitespace. -/
def jsonWs (c : Char) : Bool :=
  c = ' ' || c = '\t' || c = '\n' || c = '\r'

/-- Skip insignificant whitespace. -/
def skipWs (l : List Char) : List Char :=
  l.dropWhile jsonWs

/-- Hexadecimal digit value. -/
def hexVal (c : Char) : Option Nat :=
  let n := c.toNat
  if 48 ≤ n ∧ n ≤ 57 then some (n - 48)
  else if 65 ≤ n ∧ n ≤ 70 then some (n - 55)
  else if 97 ≤ n ∧ n ≤ 102 then some (n - 87)
  else none

/-- ASCII decimal digit? -/
def isDigitCh (c : Char) : Bool :=
  48 ≤ c.toNat && c.toNat ≤ 57

/-- Body of a JSON string after the opening quote: returns the decoded
characters and the input after the closing quote.  Escapes follow RFC 8259;
a `\uXXXX` high surrogate followed by a low surrogate combines into one
scalar (a lone surrogate degrades to the elaborator's fallback character,
immaterial to any claim). -/
def parseStringGo : Nat → List Char → Option (List Char × List Char)
  | 0, _ => none
  | f + 1, l =>
    match l with
    | [] => none
    | c :: r =>
      if c = '"' then some ([], r)
      else if c = '\\' then
        match r with
        | [] => none
        | e :: r2 =>
          if e = '"' then (parseStringGo f r2).map (fun p => ('"' :: p.1, p.2))
          else if e = '\\' then
            (parseStringGo f r2).map (fun p => ('\\' :: p.1, p.2))
          else if e = '/' then
            (parseStringGo f r2).map (fun p => ('/' :: p.1, p.2))
          else if e = 'b' then
            (parseStringGo f r2).map (fun p => (Char.ofNat 8 :: p.1, p.2))
          else if e = 'f' then
            (parseStringGo f r2).map (fun p => (Char.ofNat 12 :: p.1, p.2))
          else if e = 'n' then
            (parseStringGo f r2).map (fun p => ('\n' :: p.1, p.2))
          else if e = 'r' then
            (parseStringGo f r2).map (fun p => ('\r' :: p.1, p.2))
          else if e = 't' then
            (parseStringGo f r2).map (fun p => ('\t' :: p.1, p.2))
          else if e = 'u' then
            match r2 with
            | h1 :: h2 :: h3 :: h4 :: r3 =>
              match hexVal h1, hexVal h2, hexVal h3, hexVal h4 with
              | some a, some b, some c2, some d =>
                let code := ((a * 16 + b) * 16 + c2) * 16 + d
                if 55296 ≤ code ∧ code ≤ 56319 then
                  match r3 with
                  | '\\' :: 'u' :: k1 :: k2 :: k3 :: k4 :: r4 =>
                    match hexVal k1, hexVal k2, hexVal k3, hexVal k4 with
                    | some a2, some b2, some c3, some d2 =>
                      let code2 := ((a2 * 16 + b2) * 16 + c3) * 16 + d2
                      if 56320 ≤ code2 ∧ code2 ≤ 57343 then
                        (parseStringGo f r4).map (fun p =>
                          (Char.ofNat (65536 + (code - 55296) * 1024 +
                            (code2 - 56320)) :: p.1, p.2))
                      else
                        (parseStringGo f r3).map (fun p =>
                          (Char.ofNat code :: p.1, p.2))
                    | _, _, _, _ =>
                      (parseStringGo f r3).map (fun p =>
                        (Char.ofNat code :: p.1, p.2))
                  | _ =>
                    (parseStringGo f r3).map (fun p =>
                      (Char.ofNat code :: p.1, p.2))
                else
                  (parseStringGo f r3).map (fun p =>
                    (Char.ofNat code :: p.1, p.2))
              | _, _, _, _ => none
            | _ => none
          else none
      else if c.toNat < 32 then none
      else (parseStringGo f r).map (fun p => (c :: p.1, p.2))

/-- Optional exponent part of a JSON number (keeps the literal text). -/
def parseExpPart (acc : List Char) (l : List Char) : List Char × List Char :=
  match l with
  | e :: r =>
    if e = 'e' ∨ e = 'E' then
      match r with
      | s :: r2 =>
        if s = '+' ∨ s = '-' then
          match r2 with
          | d :: _ =>
            if isDigitCh d then
              (acc ++ e :: s :: r2.takeWhile isDigitCh, r2.dropWhile isDigitCh)
            else (acc, l)
          | [] => (acc, l)
        else if isDigitCh s then
          (acc ++ e :: r.takeWhile isDigitCh, r.dropWhile isDigitCh)
        else (acc, l)
      | [] => (acc, l)
    else (acc, l)
  | [] => (acc, l)

/-- Optional fraction then exponent of a JSON number. -/
def parseFracExp (acc : List Char) (l : List Char) : List Char × List Char :=
  let p :=
    match l with
    | '.' :: r =>
      match r with
      | d :: _ =>
        if isDigitCh d then
          (acc ++ '.' :: r.takeWhile isDigitCh, r.dropWhile isDigitCh)
        else (acc, l)
      | [] => (acc, l)
    | _ => (acc, l)
  parseExpPart p.1 p.2

/-- A JSON number literal: `-? (0 | [1-9][0-9]*) frac? exp?`. -/
def parseNum (l : List Char) : Option (List Char × List Char) :=
  let sp : List Char × List Char :=
    match l with
    | '-' :: r => (['-'], r)
    | _ => ([], l)
  match sp.2 with
  | c :: r =>
    if c = '0' then some (parseFracExp (sp.1 ++ [c]) r)
    else if isDigitCh c then
      some (parseFracExp (sp.1 ++ c :: r.takeWhile isDigitCh)
        (r.dropWhile isDigitCh))
    else none
  | [] => none

mutual

/-- One JSON value, fuel-driven (the fuel only bounds nesting; every
recursive step is preceded by consumed input). -/
def parseVal : Nat → List Char → Option (JsVal × List Char)
  | 0, _ => none
  | f + 1, l =>
    match skipWs l with
    | 'n' :: 'u' :: 'l' :: 'l' :: r => some (.vnull, r)
    | 't' :: 'r' :: 'u' :: 'e' :: r => some (.vbool true, r)
    | 'f' :: 'a' :: 'l' :: 's' :: 'e' :: r => some (.vbool false, r)
    | '"' :: r => (parseStringGo (r.length + 1) r).map
        (fun p => (.vstr p.1, p.2))
    | c :: r =>
      if c = braceL then
        match skipWs r with
        | d :: r2 =>
          if d = braceR then some (.vobj [], r2)
          else (parseMembers f (d :: r2)).map (fun p => (.vobj p.1, p.2))
        | [] => none
      else if c = '[' then
        match skipWs r with
        | ']' :: r2 => some (.varr [], r2)
        | _ => (parseElems f (skipWs r)).map (fun p => (.varr p.1, p.2))
      else if c = '-' ∨ isDigitCh c then
        (parseNum (c :: r)).map (fun p => (.vnum p.1, p.2))
      else none
    | [] => none

/-- The members of a JSON object after the opening brace (at least one). -/
def parseMembers : Nat → List Char →
    Option (List (List Char × JsVal) × List Char)
  | 0, _ => none
  | f + 1, l =>
    match skipWs l with
    | '"' :: r =>
      match parseStringGo (r.length + 1) r with
      | none => none
      | some (key, r2) =>
        match skipWs r2 with
        | ':' :: r3 =>
          match parseVal f r3 with
          | none => none
          | some (v, r4) =>
            match skipWs r4 with
            | ',' :: r5 =>
              (parseMembers f r5).map (fun p => ((key, v) :: p.1, p.2))
            | d :: r5 => if d = braceR then some ([(key, v)], r5) else none
            | [] => none
        | _ => none
    | _ => none

/-- The elements of a JSON array after the opening bracket (at least one). -/
def parseElems : Nat → List Char → Option (List JsVal × List Char)
  | 0, _ => none
  | f + 1, l =>
    match parseVal f l with
    | none => none
    | some (v, r) =>
      match skipWs r with
      | ',' :: r2 => (parseElems f r2).map (fun p => (v :: p.1, p.2))
      | ']' :: r2 => some ([v], r2)
      | _ => none

end

/-- `JSON.parse`: a single value with only whitespace around it. -/
def jsonParse (s : List Char) : Option JsVal :=
  match parseVal (2 * s.length + 2) s with
  | some (v, rest) => if (skipWs rest).isEmpty then some v else none
  | none => none

/-! ## `HybridConnectionManager.getMessageType` -/

/-- The key `"type"`. -/
def msgTypeKey : List Char := ['t', 'y', 'p', 'e']

/-- The recognized envelope types. -/
def recognizedTypes : List (List Char) :=
  ["text".toList, "file".toList, "control".toList, "handshake".toList]

/-- The low-level chunk-protocol tags mapped to `file`. -/
def lowLevelTypes : List (List Char) :=
  ["metadata".toList, "chunk".toList, "end".toList, "ack".toList,
    "file_accept".toList, "file_reject".toList, "file_cancel".toList]

/-- The object-shaped tail of `getMessageType`: a truthy object bearing a
`type` field maps low-level tags to `'file'` and returns any other field
value verbatim (the TypeScript return type is a lie there); everything
else defaults to `'file'`. -/
def objBranch (message : JsVal) : JsVal :=
  if isTruthyObject message && hasProp message msgTypeKey then
    match getProp message msgTypeKey with
    | some (.vstr t) =>
      if t ∈ lowLevelTypes then .vstr "file".toList else .vstr t
    | some v => v
    | none => .vstr "file".toList
  else .vstr "file".toList

/-- `getMessageType`: a string payload is JSON-parsed — a parse failure
returns `'text'` (the `catch` branch), and so does a successful parse to
JSON `null`, because the subsequent `parsed.type` access throws a
TypeError absorbed by the same `catch`; a parsed value with a recognized
string `type` returns it, and any other parse outcome falls through to
the object-shaped tail (which, for a string message, defaults to
`'file'`). -/
def getMessageType (message : JsVal) : JsVal :=
  match message with
  | .vstr s =>
    match jsonParse s with
    | some .vnull => .vstr "text".toList
    | some parsed =>
      match getProp parsed msgTypeKey with
      | some (.vstr t) =>
        if t ∈ recognizedTypes then .vstr t else objBranch message
      | _ => objBranch message
    | none => .vstr "text".toList
  | _ => objBranch message

/-! ## JavaScript `Map` model

The manager's `connections` / `connectionStates` / `messageHandlers` maps
become association lists with `get` / `set` / `delete` mirroring `Map`
(set updates in place, keys stay unique under the operation algebra). -/

/-- `Map.get`. -/
def mapGet {α : Type} : List (String × α) → String → Option α
  | [], _ => none
  | e :: rest, k => if e.1 = k then some e.2 else mapGet rest k

/-- `Map.set`: update the existing entry in place, else append. -/
def mapSet {α : Type} : List (String × α) → String → α → List (String × α)
  | [], k, v => [(k, v)]
  | e :: rest, k, v =>
    if e.1 = k then (k, v) :: rest else e :: mapSet rest k v

/-- `Map.delete`. -/
def mapDel {α : Type} (m : List (String × α)) (k : String) :
    List (String × α) :=
  m.filter (fun e => !(e.1 == k))

/-! ## HybridConnectionManager data model -/

/-- The transport kinds of `ConnectionType`. -/
inductive ConnectionType where
  | webrtc
  | websocket
  | hybrid
deriving DecidableEq

/-- `ConnectionState.status`. -/
inductive ConnStatus where
  | connecting
  | connected
  | failed
  | disconnected
deriving DecidableEq

/-- `ConnectionState`. -/
structure ConnectionState where
  type : ConnectionType
  status : ConnStatus
  deviceId : String
  latency : Option Nat
  lastActive : Nat
deriving DecidableEq

/-- `ConnectionStrategy`. -/
structure ConnectionStrategy where
  preferredType : ConnectionType
  fallbackTypes : List ConnectionType
  timeout : Nat
  retryAttempts : Nat

/-- The constructor-default strategy of `HybridConnectionManager`. -/
def defaultStrategy : ConnectionStrategy :=
  ⟨.webrtc, [.websocket], 10000, 3⟩

/-- A transport object (`P2PConnection` or `WebSocketConnection`); the
numeric token is the object identity. -/
inductive TransportObj where
  | p2p (tok : Nat)
  | ws (tok : Nat)
deriving DecidableEq

/-- The manager's mutable maps. -/
structure HCMState where
  connections : List (String × TransportObj)
  connectionStates : List (String × ConnectionState)
  messageHandlers : List (String × Nat)
deriving DecidableEq

/-- `deviceId.startsWith('manual-')`: marks a provisional id. -/
def isManualId (s : String) : Bool :=
  leadsWith "manual-".toList s.toList

/-- The handshake branch of `setupConnectionHandlers` once a real device
id arrives: when the current id is provisional (`manual-` prefixed) the
transport is re-registered under the real id and removed under the
provisional one, the ConnectionState (when present) moves with its
`deviceId` field rewritten, and a pending message handler (when present)
moves too.  A non-provisional current id leaves the maps untouched. -/
def remapIdentity (currentId realId : String) (conn : TransportObj)
    (st : HCMState) : HCMState :=
  if isManualId currentId then
    { connections := mapDel (mapSet st.connections realId conn) currentId
      connectionStates :=
        match mapGet st.connectionStates currentId with
        | some s => mapDel (mapSet st.connectionStates realId
            { s with deviceId := realId }) currentId
        | none => st.connectionStates
      messageHandlers :=
        match mapGet st.messageHandlers currentId with
        | some h => mapDel (mapSet st.messageHandlers realId h) currentId
        | none => st.messageHandlers }
  else st

/-! ## `connectToDevice`

The two attempt functions (`tryWebRTCConnection`, `tryWebSocketConnection`)
wait on the environment (signaling, sockets, timeouts); the environment is
abstracted as an oracle giving each transport kind's attempt outcome, and
a token supplies the identity of a freshly constructed transport object.

The websocket attempt cannot complete successfully: its `onOpen` handler
(hybrid-connection-manager.ts:307-318) runs `connections.set` and then
calls `this.setupWebSocketHandlers` — a method defined nowhere in the
repository — so a TypeError is thrown inside the callback after the
timeout was cleared, `resolve(true)` is never reached, and the attempt's
promise (and with it `connectToDevice`) never settles.  An outcome is
therefore either `settled` or `hung`, the latter carrying the map updates
performed before the throw. -/

/-- Outcome of an awaited attempt: a settled promise, or a promise that
never settles (the awaiting caller hangs), with the registry state at
that point. -/
inductive AttemptOutcome where
  | settled (success : Bool) (st : HCMState)
  | hung (st : HCMState)
deriving DecidableEq

/-- The map updates the WebRTC attempt performs on success (its
`connected` status callback, where `setupConnectionHandlers` does exist):
register the connection, then update the state's kind and latency. -/
def registerSuccess (now : Nat) (d : String) (t : ConnectionType)
    (obj : TransportObj) (st : HCMState) : HCMState :=
  let st1 := { st with connections := mapSet st.connections d obj }
  match mapGet st1.connectionStates d with
  | some s =>
    let s2 := { s with type := t, latency := some (now - s.lastActive) }
    { st1 with connectionStates := mapSet st1.connectionStates d s2 }
  | none => st1

/-- `tryConnection`: dispatch on the kind.  The `default` case of the
switch (the `hybrid` composite kind) settles false without attempting.
A successful websocket open registers the connection and then throws at
the nonexistent `setupWebSocketHandlers` with the timeout already
cleared, so that attempt hangs instead of settling. -/
def tryConnection (oracle : ConnectionType → Bool) (now : Nat) (d : String)
    (tok : Nat) (st : HCMState) (t : ConnectionType) : AttemptOutcome :=
  match t with
  | .hybrid => .settled false st
  | .webrtc =>
    if oracle .webrtc then
      .settled true (registerSuccess now d .webrtc (.p2p tok) st)
    else .settled false st
  | .websocket =>
    if oracle .websocket then
      .hung { st with connections := mapSet st.connections d (.ws tok) }
    else .settled false st

/-- The fallback loop of `connectToDevice`: try each kind in order,
stopping at the first success; awaiting a hung attempt hangs the loop. -/
def tryFallbacks (oracle : ConnectionType → Bool) (now : Nat) (d : String)
    (tok : Nat) : HCMState → List ConnectionType → AttemptOutcome
  | st, [] => .settled false st
  | st, t :: rest =>
    match tryConnection oracle now d tok st t with
    | .settled true st' => .settled true st'
    | .settled false st' => tryFallbacks oracle now d tok st' rest
    | .hung st' => .hung st'

/-- The idempotent-reuse guard of `connectToDevice`: an existing
connection object AND a `connected` state. -/
def alreadyConnected (st : HCMState) (d : String) : Bool :=
  (mapGet st.connections d).isSome &&
    (match mapGet st.connectionStates d with
     | some s => s.status == ConnStatus.connected
     | none => false)

/-- `connectToDevice`: reuse when already connected; otherwise write a
`connecting` state typed with the preferred kind, await the preferred
kind, then the fallbacks in order, and finally mark the state `connected`
or `failed` — unless an awaited attempt hangs, in which case the whole
call hangs with the state as the attempt left it. -/
def connectToDevice (strat : ConnectionStrategy)
    (oracle : ConnectionType → Bool) (now : Nat) (tok : Nat)
    (st : HCMState) (d : String) : AttemptOutcome :=
  if alreadyConnected st d then .settled true st
  else
    let s0 : ConnectionState := ⟨strat.preferredType, .connecting, d, none, now⟩
    let st1 := { st with connectionStates := mapSet st.connectionStates d s0 }
    match tryConnection oracle now d tok st1 strat.preferredType with
    | .hung st2 => .hung st2
    | .settled s1 st2 =>
      match if s1 then AttemptOutcome.settled s1 st2
          else tryFallbacks oracle now d tok st2 strat.fallbackTypes with
      | .hung st3 => .hung st3
      | .settled succ st3 =>
        if succ then
          match mapGet st3.connectionStates d with
          | some s =>
            let s2 := { s with status := ConnStatus.connected }
            .settled true { st3 with connectionStates := mapSet st3.connectionStates d s2 }
          | none => .settled true st3
        else
          match mapGet st3.connectionStates d with
          | some s =>
            let s2 := { s with status := ConnStatus.failed }
            .settled false { st3 with connectionStates := mapSet st3.connectionStates d s2 }
          | none => .settled false st3

/-- A registry state with a transport, state and handler registered under
the provisional id "manual-temp-1". -/
def manualState : HCMState :=
  ⟨[("manual-temp-1", .p2p 0)],
   [("manual-temp-1", ⟨.webrtc, .connected, "manual-temp-1", none, 0⟩)],
   [("manual-temp-1", 5)]⟩

/-! ## `P2PConnection.receiveFile` -/

/-- `FileMetadata` (without the discriminator). -/
structure FileMeta where
  fileId : String
  name : String
  size : Nat
  fileType : String
  chunks : Nat
deriving DecidableEq

/-- The `DataMessage` shapes the receive listener dispatches on; `other`
stands for the text/ack/accept/reject/cancel variants its switch
ignores. -/
inductive DataMsg where
  | metadata (md : FileMeta)
  | chunk (fileId : String) (chunkIndex : Nat) (data : List Nat)
  | endMsg (fileId : String)
  | other
deriving DecidableEq

/-- The listener's captured mutable state. -/
structure RecvAcc where
  metadata : Option FileMeta
  chunks : List (List Nat)
  receivedSize : Nat
deriving DecidableEq

/-- A receive session either still waits or has resolved with the
assembled bytes and the metadata in force. -/
inductive RecvOutcome where
  | pending (acc : RecvAcc)
  | resolved (bytes : List Nat) (md : FileMeta)
deriving DecidableEq

/-- The state of a session opened with no caller-supplied metadata. -/
def recvInit : RecvAcc := ⟨none, [], 0⟩

/-- The message listener of `receiveFile`, run over a trace: metadata for
this fileId (re)initialises the buffers; a chunk is appended only when
metadata is present; `End` with metadata present assembles the buffered
chunks and resolves (the listener is then removed, so the rest of the
trace is ignored); everything else is ignored. -/
def runReceive (fid : String) : RecvAcc → List DataMsg → RecvOutcome
  | acc, [] => .pending acc
  | acc, m :: rest =>
    match m with
    | .metadata md =>
      if md.fileId = fid then runReceive fid ⟨some md, [], 0⟩ rest
      else runReceive fid acc rest
    | .chunk f _ data =>
      if f = fid then
        match acc.metadata with
        | some _ =>
          let acc2 := { acc with chunks := acc.chunks ++ [data], receivedSize := acc.receivedSize + data.length }
          runReceive fid acc2 rest
        | none => runReceive fid acc rest
      else runReceive fid acc rest
    | .endMsg f =>
      if f = fid then
        match acc.metadata with
        | some md => .resolved acc.chunks.flatten md
        | none => runReceive fid acc rest
      else runReceive fid acc rest
    | .other => runReceive fid acc rest

/-- Is this a Metadata message for `fid`? -/
def isMetaFor (fid : String) : DataMsg → Bool
  | .metadata md => md.fileId == fid
  | _ => false

/-- Is this an End message for `fid`? -/
def isEndFor (fid : String) : DataMsg → Bool
  | .endMsg f => f == fid
  | _ => false

/-- The payload of a chunk message for `fid`. -/
def chunkDataFor (fid : String) : DataMsg → Option (List Nat)
  | .chunk f _ d => if f == fid then some d else none
  | _ => none

/-- The chunk payloads for `fid` arriving before the first End for
`fid`. -/
def collectChunks (fid : String) (l : List DataMsg) : List (List Nat) :=
  (l.takeWhile (fun m => !(isEndFor fid m))).filterMap (chunkDataFor fid)

/-! ## `P2PConnection.sendFile` progress reports -/

/-- The chunk loop of `sendFile`, keeping only the `transferred` values it
reports: `offset` advances by a full `CHUNK_SIZE` before each report, with
no cap at `fileSize`. -/
def sendChunkReports (fileSize offset : Nat) : List Nat :=
  if offset < fileSize then
    (offset + CHUNK_SIZE) :: sendChunkReports fileSize (offset + CHUNK_SIZE)
  else []
termination_by fileSize - offset
decreasing_by simp [CHUNK_SIZE]; omega

/-! ## Theorems: PacketFramer helper lemmas -/

theorem utf8Encode_cons (c : Char) (t : List Char) :
    utf8Encode (c :: t) = utf8EncodeChar c ++ utf8Encode t := by
  simp [utf8Encode]

theorem utf8Encode_ascii (s : List Char) (h : ∀ c ∈ s, c.toNat < 128) :
    utf8Encode s = s.map Char.toNat := by
  induction s with
  | nil => rfl
  | cons c t ih =>
    have hc : c.toNat < 128 := h c (by simp)
    have ht : ∀ x ∈ t, x.toNat < 128 := fun x hx => h x (by simp [hx])
    simp [utf8Encode_cons, utf8EncodeChar, hc, ih ht]

theorem utf8DecodeGo_ascii (f : Nat) (l : List Nat) (hf : l.length ≤ f)
    (h : ∀ b ∈ l, b < 128) : utf8DecodeGo f l = l.map Char.ofNat := by
  induction f generalizing l with
  | zero =>
    cases l with
    | nil => rfl
    | cons b t => simp at hf
  | succ f ih =>
    cases l with
    | nil => rfl
    | cons b t =>
      have hb : b < 128 := h b (by simp)
      have ht : ∀ x ∈ t, x < 128 := fun x hx => h x (by simp [hx])
      have hft : t.length ≤ f := by simpa using hf
      simp [utf8DecodeGo, hb, ih t hft ht]

theorem utf8Decode_ascii (l : List Nat) (h : ∀ b ∈ l, b < 128) :
    utf8Decode l = l.map Char.ofNat :=
  utf8DecodeGo_ascii l.length l le_rfl h

theorem dropWhile_replicate_append {α : Type} (p : α → Bool) (k : Nat)
    (c : α) (hp : p c = true) (t : List α) :
    List.dropWhile p (List.replicate k c ++ t) = List.dropWhile p t := by
  induction k with
  | zero => simp
  | succ k ih => simp [List.replicate_succ, List.dropWhile_cons, hp, ih]

theorem stripTrailingNulls_append_nulls (s : List Char) (k : Nat) :
    stripTrailingNulls (s ++ List.replicate k (Char.ofNat 0)) =
      stripTrailingNulls s := by
  unfold stripTrailingNulls
  rw [List.reverse_append, List.reverse_replicate,
    dropWhile_replicate_append _ k _ (by simp) s.reverse]

theorem stripTrailingNulls_no_trailing (s : List Char)
    (h : s.getLast? ≠ some (Char.ofNat 0)) : stripTrailingNulls s = s := by
  unfold stripTrailingNulls
  cases hr : s.reverse with
  | nil =>
    have : s = [] := by simpa using congrArg List.reverse hr
    simp [this]
  | cons a t =>
    have ha : ¬(a = Char.ofNat 0) := by
      intro hcontra
      apply h
      rw [List.getLast?_eq_head?_reverse, hr, hcontra]
      rfl
    have h2 : List.dropWhile (fun c => decide (c = Char.ofNat 0)) (a :: t) =
        a :: t := by
      rw [List.dropWhile_cons, if_neg (by simp [ha])]
    rw [h2, ← hr, List.reverse_reverse]

theorem readBE32_append (pre : List Nat) (n : Nat) (rest : List Nat)
    (hn : n < 4294967296) :
    readBE32 (pre ++ (be32 n ++ rest)) pre.length = n := by
  unfold readBE32
  rw [List.drop_left' rfl]
  simp only [be32, List.cons_append, List.nil_append]
  omega

/-! ## Theorems: claims about the PacketFramer -/

/-- C7: `parsePacketHeader` is total (it returns in `Option`, never
throwing) and yields `none` exactly when the buffer is shorter than 44
bytes or its first 4 bytes, read big-endian, differ from the magic
constant 0x4244544C; every other buffer parses to a header. -/
theorem parsePacketHeader_none_iff (data : List Nat) :
    parsePacketHeader data = none ↔
      data.length < 44 ∨ readBE32 data 0 ≠ PACKET_MAGIC := by
  by_cases h1 : data.length < 44 <;>
    by_cases h2 : readBE32 data 0 = PACKET_MAGIC <;>
      simp [parsePacketHeader, HEADER_SIZE, h1, h2]

/-- C1 counterexample: the claim fails for the 1-character fileId
consisting of the NUL character (UTF-8 encoding: 1 byte ≤ 36): the frame
decodes to the empty fileId, because decoding strips the trailing NUL
padding together with the fileId's own NUL. -/
theorem frame_roundtrip_nullId_cex :
    (encodePacket [Char.ofNat 0] 0 []).toOption.bind decodePacket =
      some (([], 0, []) : List Char × Nat × List Nat) ∧
    ([] : List Char) ≠ [Char.ofNat 0] := by
  constructor
  · decide
  · decide

/-- C1 (amended): for every fileId of single-byte (ASCII) characters, of
length at most 36 and not ending in the NUL character, every chunkIndex
below 2^32 and every payload, encoding succeeds and decoding the produced
frame yields back exactly the original fileId, chunkIndex and payload. -/
theorem frame_roundtrip_ascii (fileId : List Char) (chunkIndex : Nat)
    (payload : List Nat)
    (hchars : ∀ c ∈ fileId, c.toNat < 128)
    (hlen : fileId.length ≤ 36)
    (hlast : fileId.getLast? ≠ some (Char.ofNat 0))
    (hci : chunkIndex < 4294967296) :
    ∃ frame, encodePacket fileId chunkIndex payload = Except.ok frame ∧
      decodePacket frame = some (fileId, chunkIndex, payload) := by
  have hpad : ∀ c ∈ padEnd fileId 36 (Char.ofNat 0), c.toNat < 128 := by
    intro c hc
    rcases List.mem_append.mp hc with h | h
    · exact hchars c h
    · have := List.eq_of_mem_replicate h
      subst this
      decide
  have henc : utf8Encode (padEnd fileId 36 (Char.ofNat 0)) =
      fileId.map Char.toNat ++ List.replicate (36 - fileId.length) 0 := by
    rw [utf8Encode_ascii _ hpad]
    simp [padEnd, List.map_replicate]
  set bytes : List Nat :=
    fileId.map Char.toNat ++ List.replicate (36 - fileId.length) 0 with hbytes
  have hblen : bytes.length = 36 := by
    simp [hbytes]
    omega
  have hballs : ∀ b ∈ bytes, b < 128 := by
    intro b hb
    rcases List.mem_append.mp hb with h | h
    · obtain ⟨c, hc, hcb⟩ := List.mem_map.mp h
      exact hcb ▸ hchars c hc
    · have := List.eq_of_mem_replicate h
      omega
  have hok : createPacketHeader fileId chunkIndex =
      Except.ok (be32 PACKET_MAGIC ++ bytes ++ be32 chunkIndex) := by
    unfold createPacketHeader
    rw [henc]
    rw [if_neg (by omega)]
    congr 1
    rw [List.take_left' hblen, Nat.mod_eq_of_lt hci]
  refine ⟨be32 PACKET_MAGIC ++ (bytes ++ (be32 chunkIndex ++ payload)), ?_, ?_⟩
  · unfold encodePacket
    rw [hok]
    simp [Except.map, List.append_assoc]
  · have hmagiclen : (be32 PACKET_MAGIC).length = 4 := by decide
    have hlen44 : (be32 PACKET_MAGIC ++ (bytes ++ (be32 chunkIndex ++
        payload))).length = 44 + payload.length := by
      simp [hblen, be32]
      omega
    have hmagic : readBE32 (be32 PACKET_MAGIC ++ (bytes ++ (be32 chunkIndex ++
        payload))) 0 = PACKET_MAGIC := by
      have := readBE32_append [] PACKET_MAGIC
        (bytes ++ (be32 chunkIndex ++ payload)) (by decide)
      simpa using this
    have hdrop4 : (be32 PACKET_MAGIC ++ (bytes ++ (be32 chunkIndex ++
        payload))).drop 4 = bytes ++ (be32 chunkIndex ++ payload) :=
      List.drop_left' hmagiclen
    have hfid : stripTrailingNulls (utf8Decode bytes) = fileId := by
      have hdec : utf8Decode bytes = fileId ++
          List.replicate (36 - fileId.length) (Char.ofNat 0) := by
        rw [utf8Decode_ascii bytes hballs, hbytes, List.map_append,
          List.map_map, List.map_replicate]
        congr 1
        calc List.map (Char.ofNat ∘ Char.toNat) fileId
            = List.map id fileId :=
              List.map_congr_left (fun c _ => Char.ofNat_toNat c)
          _ = fileId := List.map_id fileId
      rw [hdec, stripTrailingNulls_append_nulls,
        stripTrailingNulls_no_trailing _ hlast]
    have hci40 : readBE32 (be32 PACKET_MAGIC ++ (bytes ++ (be32 chunkIndex ++
        payload))) 40 = chunkIndex := by
      have h40 : (be32 PACKET_MAGIC ++ bytes).length = 40 := by
        simp [hblen, be32]
      have h := readBE32_append (be32 PACKET_MAGIC ++ bytes) chunkIndex
        payload hci
      rw [h40, List.append_assoc] at h
      exact h
    have hdrop44 : (be32 PACKET_MAGIC ++ (bytes ++ (be32 chunkIndex ++
        payload))).drop 44 = payload := by
      have h44 : ((be32 PACKET_MAGIC ++ bytes) ++ be32 chunkIndex).length =
          44 := by
        simp [hblen, be32]
      have heq : be32 PACKET_MAGIC ++ (bytes ++ (be32 chunkIndex ++
          payload)) = ((be32 PACKET_MAGIC ++ bytes) ++ be32 chunkIndex) ++
          payload := by
        simp [List.append_assoc]
      rw [heq]
      exact List.drop_left' h44
    unfold decodePacket parsePacketHeader HEADER_SIZE
    rw [if_neg (by omega)]
    simp only [hmagic, ne_eq, not_true_eq_false, if_false, ite_false,
      if_neg (by simp : ¬(PACKET_MAGIC ≠ PACKET_MAGIC))]
    rw [hdrop4, List.take_left' hblen, hfid]
    simp [hci40, hdrop44]

/-- C1 witness: a concrete ASCII fileId round-trips through the frame. -/
theorem frame_roundtrip_ascii_witness :
    (encodePacket ['a', 'b', 'c'] 7 [9, 200]).toOption.bind decodePacket =
      some (['a', 'b', 'c'], 7, [9, 200]) := by
  obtain ⟨f, hf, hd⟩ := frame_roundtrip_ascii ['a', 'b', 'c'] 7 [9, 200]
    (by decide) (by decide) (by decide) (by decide)
  rw [hf]
  simpa [Except.toOption] using hd

/-- C8 counterexample: a fileId of 37 ASCII characters has a 37-byte UTF-8
encoding (> 36), yet `createPacketHeader` succeeds and silently produces a
frame (the claimed `InvalidFileIdError` does not exist in the code). -/
theorem createPacketHeader_oversize_cex :
    (utf8Encode (List.replicate 37 'a')).length = 37 ∧
    (createPacketHeader (List.replicate 37 'a') 0).isOk = true := by
  constructor
  · decide
  · decide

/-- C8 (amended): header construction fails — with an untyped RangeError
from the buffer write, not a dedicated InvalidFileIdError — exactly when
the UTF-8 encoding of the NUL-padded fileId exceeds the 40 bytes that
follow the magic in the 44-byte buffer; any shorter encoding (including
fileIds of 37–40 bytes, whose tail bytes are silently overwritten by the
chunkIndex) produces a frame without error. -/
theorem createPacketHeader_error_iff (fileId : List Char) (ci : Nat) :
    createPacketHeader fileId ci = Except.error FrameErr.rangeErr ↔
      40 < (utf8Encode (padEnd fileId 36 (Char.ofNat 0))).length := by
  by_cases h : 40 < (utf8Encode (padEnd fileId 36 (Char.ofNat 0))).length <;>
    simp [createPacketHeader, h]

/-! ## Theorems: SDPCompressor helper lemmas -/

theorem leadsWith_append (p l : List Char) : leadsWith p (p ++ l) = true := by
  induction p with
  | nil => rfl
  | cons c cs ih => simp [leadsWith, ih]

theorem leadsWith_version_of_legacy (rest : List Char) :
    leadsWith versionTag (legacyTag ++ rest) = false := by
  simp [versionTag, legacyTag, leadsWith]

/-! ## Theorems: claims about the SDPCompressor -/

/-- C2 counterexample: for the session description consisting of one
peer-reflexive candidate line, the pruned form is the empty string; even
with a perfectly round-tripping codec, `decompress(compress(x))` is `null`
(the code treats the falsy empty decompression result as a failure), not
the pruned form. -/
theorem sdp_roundtrip_pruned_empty_cex :
    idUnlz (idLz (optimizeSDP sampleNoKeep)) = some (optimizeSDP sampleNoKeep) ∧
    optimizeSDP sampleNoKeep = [] ∧
    decompress idUnlz (compress idLz sampleNoKeep) = none := by
  refine ⟨rfl, by decide, by decide⟩

/-- C2 (amended): assuming the LZ codec round-trips (the LZ-String
contract), for every session description whose pruned form is non-empty,
`decompress(compress(x))` returns exactly the pruned form of `x`; pruning
keeps the first 2 host candidate lines, all srflx/relay candidate lines,
drops other candidate lines and keeps every non-candidate line. -/
theorem sdp_roundtrip (lz : List Char → List Char)
    (unlz : List Char → Option (List Char)) (sdp : List Char)
    (hcodec : unlz (lz (optimizeSDP sdp)) = some (optimizeSDP sdp))
    (hne : optimizeSDP sdp ≠ []) :
    decompress unlz (compress lz sdp) = some (optimizeSDP sdp) := by
  unfold decompress compress
  rw [if_pos (leadsWith_append versionTag _), List.drop_left' rfl, hcodec]
  cases hopt : optimizeSDP sdp with
  | nil => exact absurd hopt hne
  | cons c cs => rfl

/-- C2 witness: the amended round-trip at a concrete session description
with the identity codec. -/
theorem sdp_roundtrip_witness :
    decompress idUnlz (compress idLz sampleSdp) =
      some (optimizeSDP sampleSdp) :=
  sdp_roundtrip idLz idUnlz sampleSdp rfl (by decide)

/-- C6: `decompress` recognizes exactly three forms — an "X1:" code is
fed to the general-purpose text decompressor (a falsy result failing), an
"XTRANS:" code is base64-decoded and returned without any
pruning/compression step, a code whose trimmed form starts with a brace
is returned as the trimmed raw JSON, and every other input fails with
`null` (the `DecodeError`). -/
theorem decompress_forms (unlz : List Char → Option (List Char))
    (code rest : List Char) :
    (decompress unlz (versionTag ++ rest) =
      match unlz rest with
      | some (c :: cs) => some (c :: cs)
      | _ => none) ∧
    (decompress unlz (legacyTag ++ rest) =
      Option.map utf8Decode (atobDecode rest)) ∧
    (leadsWith versionTag code = false → leadsWith legacyTag code = false →
      (trimJs code).head? = some (Char.ofNat 123) →
      decompress unlz code = some (trimJs code)) ∧
    (leadsWith versionTag code = false → leadsWith legacyTag code = false →
      (trimJs code).head? ≠ some (Char.ofNat 123) →
      decompress unlz code = none) := by
  refine ⟨?_, ?_, ?_, ?_⟩
  · unfold decompress
    rw [if_pos (leadsWith_append versionTag rest), List.drop_left' rfl]
  · unfold decompress
    rw [if_neg (by simp [leadsWith_version_of_legacy]),
      if_pos (leadsWith_append legacyTag rest)]
    unfold decompressLegacy
    rw [List.drop_left' rfl]
    cases atobDecode rest <;> rfl
  · intro h1 h2 h3
    unfold decompress
    rw [if_neg (by simp [h1]), if_neg (by simp [h2]), if_pos h3]
  · intro h1 h2 h3
    unfold decompress
    rw [if_neg (by simp [h1]), if_neg (by simp [h2]), if_neg h3]

/-- C6 witness: the brace-passthrough and the unrecognized-input failure
at concrete codes. -/
theorem decompress_forms_witness :
    decompress (fun _ => none) [Char.ofNat 123, 'a'] =
      some [Char.ofNat 123, 'a'] ∧
    decompress (fun _ => none) ['z'] = none :=
  ⟨(decompress_forms (fun _ => none) [Char.ofNat 123, 'a'] []).2.2.1
      (by decide) (by decide) (by decide),
   (decompress_forms (fun _ => none) ['z'] []).2.2.2
      (by decide) (by decide) (by decide)⟩

/-! ## Theorems: message classification (C5) -/

theorem hasProp_of_getProp (m : JsVal) (key : List Char) (v : JsVal)
    (h : getProp m key = some v) : hasProp m key = true := by
  cases m with
  | vobj fields =>
    simp only [getProp, Option.map_eq_some'] at h
    obtain ⟨p, hp, _⟩ := h
    have hpred := List.find?_some hp
    have hmem : p ∈ fields.reverse := List.mem_of_find?_eq_some hp
    simp only [hasProp, List.any_eq_true]
    exact ⟨p, by simpa using hmem, hpred⟩
  | vnull => simp [getProp] at h
  | vbool b => simp [getProp] at h
  | vnum l => simp [getProp] at h
  | vstr s => simp [getProp] at h
  | varr xs => simp [getProp] at h
  | vbin b => simp [getProp] at h

/-- C5 counterexample: a string payload that is not JSON is classified as
`'text'` (the `catch` branch of the string case), not as the claimed
default `'file'`. -/
theorem getMessageType_nonjson_cex :
    getMessageType (.vstr "hello".toList) = .vstr "text".toList ∧
    String.toList "text" ≠ String.toList "file" :=
  ⟨rfl, by decide⟩

/-- C5 (amended): the classification actually implemented — a string
parsing as JSON with a recognized string `type` yields that type; a string
failing to parse as JSON, or parsing to JSON `null` (whose `type` access
throws a TypeError absorbed by the same catch), yields `'text'`; a string
parsing as other JSON without a recognized string `type` yields `'file'`;
a truthy non-string object with a `type` field yields `'file'` for the
low-level chunk tags and the field value verbatim otherwise; every
remaining payload yields `'file'`. -/
theorem getMessageType_spec :
    (∀ s v t, jsonParse s = some v →
      getProp v msgTypeKey = some (.vstr t) → t ∈ recognizedTypes →
      getMessageType (.vstr s) = .vstr t) ∧
    (∀ s, jsonParse s = none →
      getMessageType (.vstr s) = .vstr "text".toList) ∧
    (∀ s, jsonParse s = some .vnull →
      getMessageType (.vstr s) = .vstr "text".toList) ∧
    (∀ s v t, jsonParse s = some v →
      getProp v msgTypeKey = some (.vstr t) → t ∉ recognizedTypes →
      getMessageType (.vstr s) = .vstr "file".toList) ∧
    (∀ s v, jsonParse s = some v → v ≠ .vnull →
      (∀ t, getProp v msgTypeKey ≠ some (.vstr t)) →
      getMessageType (.vstr s) = .vstr "file".toList) ∧
    (∀ m t, isTruthyObject m = true →
      getProp m msgTypeKey = some (.vstr t) → t ∈ lowLevelTypes →
      getMessageType m = .vstr "file".toList) ∧
    (∀ m v, isTruthyObject m = true → getProp m msgTypeKey = some v →
      (∀ t, v = .vstr t → t ∉ lowLevelTypes) → getMessageType m = v) ∧
    (∀ m, (∀ s, m ≠ .vstr s) →
      (isTruthyObject m && hasProp m msgTypeKey) = false →
      getMessageType m = .vstr "file".toList) := by
  refine ⟨?_, ?_, ?_, ?_, ?_, ?_, ?_, ?_⟩
  · intro s v t h1 h2 h3
    cases v with
    | vobj fields => simp [getMessageType, h1, h2, h3]
    | vnull => simp [getProp] at h2
    | vbool b => simp [getProp] at h2
    | vnum l => simp [getProp] at h2
    | vstr s2 => simp [getProp] at h2
    | varr xs => simp [getProp] at h2
    | vbin b => simp [getProp] at h2
  · intro s h1
    simp [getMessageType, h1]
  · intro s h1
    simp [getMessageType, h1]
  · intro s v t h1 h2 h3
    cases v with
    | vobj fields =>
      simp [getMessageType, objBranch, isTruthyObject, h1, h2, h3]
    | vnull => simp [getProp] at h2
    | vbool b => simp [getProp] at h2
    | vnum l => simp [getProp] at h2
    | vstr s2 => simp [getProp] at h2
    | varr xs => simp [getProp] at h2
    | vbin b => simp [getProp] at h2
  · intro s v h1 hnn h2
    cases v with
    | vnull => exact absurd rfl hnn
    | vbool b => simp [getMessageType, objBranch, isTruthyObject, getProp, h1]
    | vnum l => simp [getMessageType, objBranch, isTruthyObject, getProp, h1]
    | vstr s2 => simp [getMessageType, objBranch, isTruthyObject, getProp, h1]
    | varr xs => simp [getMessageType, objBranch, isTruthyObject, getProp, h1]
    | vbin b => simp [getMessageType, objBranch, isTruthyObject, getProp, h1]
    | vobj fields =>
      cases hg : getProp (JsVal.vobj fields) msgTypeKey with
      | none => simp [getMessageType, objBranch, isTruthyObject, h1, hg]
      | some w =>
        cases w with
        | vstr t => exact absurd hg (h2 t)
        | vnull => simp [getMessageType, objBranch, isTruthyObject, h1, hg]
        | vbool b => simp [getMessageType, objBranch, isTruthyObject, h1, hg]
        | vnum l => simp [getMessageType, objBranch, isTruthyObject, h1, hg]
        | varr xs => simp [getMessageType, objBranch, isTruthyObject, h1, hg]
        | vobj fs => simp [getMessageType, objBranch, isTruthyObject, h1, hg]
        | vbin b => simp [getMessageType, objBranch, isTruthyObject, h1, hg]
  · intro m t h1 h2 h3
    have hhp := hasProp_of_getProp m msgTypeKey _ h2
    cases m with
    | vobj fields =>
      simp [getMessageType, objBranch, isTruthyObject, hhp, h2, h3]
    | vnull => simp [isTruthyObject] at h1
    | vbool b => simp [isTruthyObject] at h1
    | vnum l => simp [isTruthyObject] at h1
    | vstr s => simp [isTruthyObject] at h1
    | varr xs => simp [getProp] at h2
    | vbin b => simp [getProp] at h2
  · intro m v h1 h2 h3
    have hhp := hasProp_of_getProp m msgTypeKey _ h2
    cases m with
    | vobj fields =>
      cases v with
      | vstr t =>
        have hnl := h3 t rfl
        simp [getMessageType, objBranch, isTruthyObject, hhp, h2, hnl]
      | vnull => simp [getMessageType, objBranch, isTruthyObject, hhp, h2]
      | vbool b => simp [getMessageType, objBranch, isTruthyObject, hhp, h2]
      | vnum l => simp [getMessageType, objBranch, isTruthyObject, hhp, h2]
      | varr xs => simp [getMessageType, objBranch, isTruthyObject, hhp, h2]
      | vobj fs => simp [getMessageType, objBranch, isTruthyObject, hhp, h2]
      | vbin b => simp [getMessageType, objBranch, isTruthyObject, hhp, h2]
    | vnull => simp [isTruthyObject] at h1
    | vbool b => simp [isTruthyObject] at h1
    | vnum l => simp [isTruthyObject] at h1
    | vstr s => simp [isTruthyObject] at h1
    | varr xs => simp [getProp] at h2
    | vbin b => simp [getProp] at h2
  · intro m hns hcond
    cases m with
    | vstr s => exact absurd rfl (hns s)
    | vnull => simp [getMessageType, objBranch, hcond]
    | vbool b => simp [getMessageType, objBranch, hcond]
    | vnum l => simp [getMessageType, objBranch, hcond]
    | varr xs => simp [getMessageType, objBranch, hcond]
    | vobj fs => simp [getMessageType, objBranch, hcond]
    | vbin b => simp [getMessageType, objBranch, hcond]

/-- C5 witness: the amended classification at concrete payloads — a
recognized JSON string, a non-JSON string, the string "null" (TypeError
path), a low-level tagged object, and an object with an unrecognized tag
returned verbatim. -/
theorem getMessageType_spec_witness :
    getMessageType (.vstr "\x7b\"type\":\"control\"\x7d".toList) =
      .vstr "control".toList ∧
    getMessageType (.vstr "notjson".toList) = .vstr "text".toList ∧
    getMessageType (.vstr "null".toList) = .vstr "text".toList ∧
    getMessageType (.vobj [(msgTypeKey, .vstr "chunk".toList)]) =
      .vstr "file".toList ∧
    getMessageType (.vobj [(msgTypeKey, .vstr "weird".toList)]) =
      .vstr "weird".toList := by
  refine ⟨?_, ?_, ?_, ?_, ?_⟩
  · exact getMessageType_spec.1 _
      (.vobj [(msgTypeKey, .vstr "control".toList)]) _ rfl rfl (by decide)
  · exact getMessageType_spec.2.1 _ rfl
  · exact getMessageType_spec.2.2.1 _ rfl
  · exact getMessageType_spec.2.2.2.2.2.1
      (.vobj [(msgTypeKey, .vstr "chunk".toList)]) _ rfl rfl (by decide)
  · exact getMessageType_spec.2.2.2.2.2.2.1
      (.vobj [(msgTypeKey, .vstr "weird".toList)]) _ rfl rfl
      (fun t ht => by injection ht with h2; subst h2; decide)

/-! ## Theorems: `Map` lemmas -/

theorem mapGet_mapSet {α : Type} (m : List (String × α)) (k k' : String)
    (v : α) :
    mapGet (mapSet m k v) k' = if k' = k then some v else mapGet m k' := by
  induction m with
  | nil =>
    simp only [mapSet, mapGet]
    by_cases h : k' = k
    · subst h
      simp
    · rw [if_neg (fun hh => h hh.symm), if_neg h]
  | cons e rest ih =>
    by_cases he : e.1 = k
    · simp only [mapSet, if_pos he, mapGet]
      by_cases h : k' = k
      · subst h
        simp
      · rw [if_neg (fun hh => h hh.symm), if_neg h,
          if_neg (fun hh => h (he ▸ hh).symm)]
    · simp only [mapSet, if_neg he, mapGet]
      by_cases h2 : e.1 = k'
      · have h3 : ¬(k' = k) := fun hh => he (by rw [h2, hh])
        simp [h2, h3]
      · by_cases h3 : k' = k
        · subst h3
          simp [h2, he, ih]
        · simp [h2, h3, ih]

theorem mapGet_mapDel {α : Type} (m : List (String × α)) (k k' : String) :
    mapGet (mapDel m k) k' = if k' = k then none else mapGet m k' := by
  induction m with
  | nil => simp [mapDel, mapGet]
  | cons e rest ih =>
    by_cases he : e.1 = k
    · have h1 : mapDel (e :: rest) k = mapDel rest k := by
        simp [mapDel, List.filter_cons, he]
      rw [h1, ih]
      by_cases h3 : k' = k
      · simp [h3]
      · have h2 : ¬(e.1 = k') := fun hh => h3 (by rw [← hh, he])
        simp [h3, mapGet, h2]
    · have h1 : mapDel (e :: rest) k = e :: mapDel rest k := by
        simp [mapDel, List.filter_cons, he]
      rw [h1]
      simp only [mapGet]
      by_cases h2 : e.1 = k'
      · have h3 : ¬(k' = k) := fun hh => he (by rw [h2, hh])
        simp [h2, h3]
      · by_cases h3 : k' = k
        · subst h3
          simp [h2, he, ih]
        · simp [h2, h3, ih]

theorem mapSet_mapSet {α : Type} (m : List (String × α)) (k : String)
    (v v' : α) : mapSet (mapSet m k v) k v' = mapSet m k v' := by
  induction m with
  | nil => simp [mapSet]
  | cons e rest ih =>
    by_cases he : e.1 = k
    · simp [mapSet, he]
    · simp [mapSet, he, ih]

/-! ## Theorems: identity remap (C3) -/

/-- C3: on the first handshake carrying a real (non-provisional) device
id, a transport registered under a `manual-` provisional id, its
ConnectionState (with `deviceId` rewritten) and its pending
message-handler registration all become retrievable under the real id,
every lookup under the provisional id now yields `none` (the
`NotFoundError`), and the connections map is characterized pointwise —
the transport is reachable under exactly the real id, so no state has it
under both ids or neither. -/
theorem identity_remap (st : HCMState) (currentId realId : String)
    (conn : TransportObj)
    (hprov : isManualId currentId = true)
    (hreal : isManualId realId = false)
    (hconn : mapGet st.connections currentId = some conn) :
    (∀ k, mapGet (remapIdentity currentId realId conn st).connections k =
      if k = realId then some conn
      else if k = currentId then none
      else mapGet st.connections k) ∧
    (∀ s, mapGet st.connectionStates currentId = some s →
      mapGet (remapIdentity currentId realId conn st).connectionStates
        realId = some { s with deviceId := realId } ∧
      mapGet (remapIdentity currentId realId conn st).connectionStates
        currentId = none) ∧
    (∀ h, mapGet st.messageHandlers currentId = some h →
      mapGet (remapIdentity currentId realId conn st).messageHandlers
        realId = some h ∧
      mapGet (remapIdentity currentId realId conn st).messageHandlers
        currentId = none) := by
  have hne : realId ≠ currentId := by
    intro hh
    rw [hh, hprov] at hreal
    simp at hreal
  have hne' : currentId ≠ realId := fun hh => hne hh.symm
  unfold remapIdentity
  rw [if_pos hprov]
  refine ⟨?_, ?_, ?_⟩
  · intro k
    simp only [mapGet_mapDel, mapGet_mapSet]
    by_cases h1 : k = realId
    · subst h1
      rw [if_neg (fun hh => hne hh), if_pos rfl, if_pos rfl]
    · by_cases h2 : k = currentId
      · simp [h1, h2, hne']
      · simp [h1, h2]
  · intro s hs
    rw [hs]
    constructor
    · simp only [mapGet_mapDel, mapGet_mapSet]
      simp [hne]
    · simp only [mapGet_mapDel]
      simp
  · intro h hh
    rw [hh]
    constructor
    · simp only [mapGet_mapDel, mapGet_mapSet]
      simp [hne]
    · simp only [mapGet_mapDel]
      simp

/-- C3 witness: the spec's own example — a transport under
`manual-temp-1` receiving a handshake with real id `real-42`. -/
theorem identity_remap_witness :
    mapGet (remapIdentity "manual-temp-1" "real-42" (.p2p 0)
      manualState).connections "real-42" = some (.p2p 0) ∧
    mapGet (remapIdentity "manual-temp-1" "real-42" (.p2p 0)
      manualState).connections "manual-temp-1" = none ∧
    mapGet (remapIdentity "manual-temp-1" "real-42" (.p2p 0)
      manualState).connectionStates "real-42" =
      some ⟨.webrtc, .connected, "real-42", none, 0⟩ ∧
    mapGet (remapIdentity "manual-temp-1" "real-42" (.p2p 0)
      manualState).connectionStates "manual-temp-1" = none ∧
    mapGet (remapIdentity "manual-temp-1" "real-42" (.p2p 0)
      manualState).messageHandlers "real-42" = some 5 ∧
    mapGet (remapIdentity "manual-temp-1" "real-42" (.p2p 0)
      manualState).messageHandlers "manual-temp-1" = none := by
  obtain ⟨h1, h2, h3⟩ := identity_remap manualState "manual-temp-1"
    "real-42" (.p2p 0) (by decide) (by decide) (by decide)
  obtain ⟨h2a, h2b⟩ := h2 ⟨.webrtc, .connected, "manual-temp-1", none, 0⟩
    (by decide)
  obtain ⟨h3a, h3b⟩ := h3 5 (by decide)
  refine ⟨(h1 "real-42").trans (by decide),
    (h1 "manual-temp-1").trans (by decide), h2a, h2b, h3a, h3b⟩

/-! ## Theorems: connection fallback (C4) -/

/-- C4: code bug — the spec's fallback scenario cannot complete.  With
the preferred webrtc kind failing and the websocket fallback's socket
opening successfully, `connectToDevice` hangs: the open callback
registers the connection and then throws a TypeError at the call to the
nonexistent `setupWebSocketHandlers` (hybrid-connection-manager.ts:310)
with the attempt timeout already cleared, so the attempt's promise never
settles, no `true` is ever returned, and the ConnectionState stays at
status `connecting` — never `Connected` with transportKind websocket as
the claim requires. -/
theorem connectToDevice_websocket_fallback_hangs :
    connectToDevice defaultStrategy (fun t => t == ConnectionType.websocket)
      7 0 (⟨[], [], []⟩ : HCMState) "d" =
      .hung ⟨[("d", .ws 0)],
        [("d", ⟨.webrtc, .connecting, "d", none, 7⟩)], []⟩ := by
  decide

/-! ## Theorems: receive session (C9) -/

theorem runReceive_after_meta (fid : String) (md : FileMeta)
    (cs : List (List Nat)) (sz : Nat) (post : List DataMsg)
    (hpost : ∀ m ∈ post, isMetaFor fid m = false) :
    runReceive fid ⟨some md, cs, sz⟩ post =
      if post.any (isEndFor fid) then
        .resolved (cs ++ collectChunks fid post).flatten md
      else
        .pending ⟨some md, cs ++ post.filterMap (chunkDataFor fid),
          sz + ((post.filterMap (chunkDataFor fid)).map List.length).sum⟩ := by
  induction post generalizing cs sz with
  | nil => simp [runReceive, collectChunks]
  | cons m post' ih =>
    have hm := hpost m (by simp)
    have h' : ∀ x ∈ post', isMetaFor fid x = false :=
      fun x hx => hpost x (by simp [hx])
    cases m with
    | metadata md2 =>
      have hne : ¬(md2.fileId = fid) := by simpa [isMetaFor] using hm
      simp [runReceive, hne, ih _ _ h', collectChunks, isEndFor,
        chunkDataFor]
    | chunk f ci data =>
      by_cases hf : f = fid
      · subst hf
        have hL : runReceive f ⟨some md, cs, sz⟩
            (.chunk f ci data :: post') =
            runReceive f ⟨some md, cs ++ [data], sz + data.length⟩
              post' := by
          simp [runReceive]
        rw [hL, ih (cs ++ [data]) (sz + data.length) h']
        have hany : ((DataMsg.chunk f ci data) :: post').any
            (isEndFor f) = post'.any (isEndFor f) := by
          simp [isEndFor]
        have hcol : collectChunks f (.chunk f ci data :: post') =
            data :: collectChunks f post' := by
          simp [collectChunks, isEndFor, chunkDataFor]
        have hfm : List.filterMap (chunkDataFor f)
            (.chunk f ci data :: post') =
            data :: List.filterMap (chunkDataFor f) post' := by
          simp [chunkDataFor]
        rw [hany, hcol, hfm]
        by_cases hend : post'.any (isEndFor f) = true
        · simp [hend, List.append_assoc]
        · simp [hend, List.append_assoc, Nat.add_assoc]
      · simp [runReceive, hf, ih _ _ h', collectChunks, isEndFor,
          chunkDataFor]
    | endMsg f =>
      by_cases hf : f = fid
      · subst hf
        simp [runReceive, collectChunks, isEndFor]
      · simp [runReceive, hf, ih _ _ h', collectChunks, isEndFor,
          chunkDataFor]
    | other =>
      simp [runReceive, ih _ _ h', collectChunks, isEndFor, chunkDataFor]

/-- C9: for a receive session opened with no initial metadata — (1) any
prefix of messages containing no Metadata for this fileId is processed
without any effect (chunks there are discarded, not buffered); (2) a whole
trace without Metadata leaves the session pending in its initial state, so
an early End does not resolve it; (3) after a Metadata for the fileId, the
session resolves exactly when an End for the fileId follows, with the file
assembled exclusively from this fileId's chunks arriving after the
Metadata and before that End. -/
theorem receiveFile_after_metadata_only :
    (∀ (fid : String) (pre rest : List DataMsg),
      (∀ m ∈ pre, isMetaFor fid m = false) →
      runReceive fid recvInit (pre ++ rest) =
        runReceive fid recvInit rest) ∧
    (∀ (fid : String) (msgs : List DataMsg),
      (∀ m ∈ msgs, isMetaFor fid m = false) →
      runReceive fid recvInit msgs = .pending recvInit) ∧
    (∀ (fid : String) (md : FileMeta) (post : List DataMsg),
      md.fileId = fid → (∀ m ∈ post, isMetaFor fid m = false) →
      runReceive fid recvInit (.metadata md :: post) =
        if post.any (isEndFor fid) then
          .resolved (collectChunks fid post).flatten md
        else
          .pending ⟨some md, post.filterMap (chunkDataFor fid),
            ((post.filterMap (chunkDataFor fid)).map List.length).sum⟩) := by
  have hdrop : ∀ (fid : String) (pre rest : List DataMsg),
      (∀ m ∈ pre, isMetaFor fid m = false) →
      runReceive fid recvInit (pre ++ rest) =
        runReceive fid recvInit rest := by
    intro fid pre rest h
    induction pre with
    | nil => rfl
    | cons m pre' ih =>
      have hm := h m (by simp)
      have h' : ∀ x ∈ pre', isMetaFor fid x = false :=
        fun x hx => h x (by simp [hx])
      cases m with
      | metadata md =>
        have hne : ¬(md.fileId = fid) := by simpa [isMetaFor] using hm
        simpa [runReceive, hne] using ih h'
      | chunk f ci data =>
        by_cases hf : f = fid <;>
          simpa [runReceive, recvInit, hf] using ih h'
      | endMsg f =>
        by_cases hf : f = fid <;>
          simpa [runReceive, recvInit, hf] using ih h'
      | other => simpa [runReceive] using ih h'
  refine ⟨hdrop, ?_, ?_⟩
  · intro fid msgs h
    have := hdrop fid msgs [] h
    rw [List.append_nil] at this
    rw [this]
    rfl
  · intro fid md post hmd hpost
    have hstep : runReceive fid recvInit (.metadata md :: post) =
        runReceive fid ⟨some md, [], 0⟩ post := by
      simp [runReceive, recvInit, hmd]
    rw [hstep, runReceive_after_meta fid md [] 0 post hpost]
    simp

/-- C9 witness: a chunk and an End arriving before any metadata leave the
session pending and empty; after metadata, only this file's chunks before
the End are assembled. -/
theorem receiveFile_after_metadata_only_witness :
    runReceive "f" recvInit
      [.chunk "f" 0 [1], .endMsg "f"] = .pending recvInit ∧
    runReceive "f" recvInit
      [.metadata ⟨"f", "a", 3, "t", 1⟩, .chunk "f" 0 [1, 2],
        .chunk "g" 0 [9], .endMsg "f", .chunk "f" 1 [3]] =
      .resolved [1, 2] ⟨"f", "a", 3, "t", 1⟩ := by
  constructor
  · exact receiveFile_after_metadata_only.2.1 "f"
      [.chunk "f" 0 [1], .endMsg "f"] (by decide)
  · rw [receiveFile_after_metadata_only.2.2 "f" ⟨"f", "a", 3, "t", 1⟩
      [.chunk "f" 0 [1, 2], .chunk "g" 0 [9], .endMsg "f",
        .chunk "f" 1 [3]] rfl (by decide)]
    decide

/-! ## Theorems: sendFile progress (C10) -/

theorem sendChunkReports_eq (S offset : Nat) : sendChunkReports S offset =
    if offset < S then (offset + CHUNK_SIZE) :: sendChunkReports S (offset + CHUNK_SIZE) else [] := by
  rw [sendChunkReports]
theorem sendChunkReports_length_aux (S : Nat) : ∀ (n offset : Nat), S - offset ≤ n →
    (sendChunkReports S offset).length = (S - offset + CHUNK_SIZE - 1) / CHUNK_SIZE := by
  intro n
  induction n with
  | zero =>
    intro offset h
    rw [sendChunkReports_eq, if_neg (by omega)]
    simp only [List.length_nil, CHUNK_SIZE]
    omega
  | succ n ih =>
    intro offset h
    rw [sendChunkReports_eq]
    by_cases hlt : offset < S
    · rw [if_pos hlt, List.length_cons,
        ih (offset + CHUNK_SIZE) (by simp only [CHUNK_SIZE]; omega)]
      simp only [CHUNK_SIZE]
      omega
    · rw [if_neg hlt]
      simp only [List.length_nil, CHUNK_SIZE]
      omega
theorem sendChunkReports_length (S offset : Nat) :
    (sendChunkReports S offset).length = (S - offset + CHUNK_SIZE - 1) / CHUNK_SIZE :=
  sendChunkReports_length_aux S (S - offset) offset le_rfl
theorem sendChunkReports_getD_aux (S : Nat) : ∀ (n offset k : Nat), S - offset ≤ n →
    k < (sendChunkReports S offset).length →
    (sendChunkReports S offset).getD k 0 = offset + (k + 1) * CHUNK_SIZE := by
  intro n
  induction n with
  | zero =>
    intro offset k h hk
    rw [sendChunkReports_length] at hk
    simp only [CHUNK_SIZE] at hk
    omega
  | succ n ih =>
    intro offset k h hk
    have hk2 := hk
    rw [sendChunkReports_length] at hk2
    by_cases hlt : offset < S
    · rw [sendChunkReports_eq, if_pos hlt]
      cases k with
      | zero =>
        rw [List.getD_cons_zero]
        simp only [CHUNK_SIZE]
      | succ k' =>
        have hk' : k' < (sendChunkReports S (offset + CHUNK_SIZE)).length := by
          rw [sendChunkReports_length]
          simp only [CHUNK_SIZE] at hk2 ⊢
          omega
        rw [List.getD_cons_succ,
          ih (offset + CHUNK_SIZE) k' (by simp only [CHUNK_SIZE]; omega) hk']
        simp only [CHUNK_SIZE]
        omega
    · simp only [CHUNK_SIZE] at hk2
      omega
theorem sendChunkReports_getD (S offset k : Nat)
    (hk : k < (sendChunkReports S offset).length) :
    (sendChunkReports S offset).getD k 0 = offset + (k + 1) * CHUNK_SIZE :=
  sendChunkReports_getD_aux S (S - offset) offset k le_rfl hk
/-- C10: after the k-th chunk (1-indexed) the progress callback reports
`bytesSent = k * 16384` with no cap at the file size, so on a file of S
bytes the final report is `16384 * (S / 16384 rounded up)`, which strictly
exceeds `totalBytes = S` whenever S is not a multiple of 16384. -/
theorem sendFile_progress_uncapped (S : Nat) (hS : 0 < S) :
    (sendChunkReports S 0).length = (S + CHUNK_SIZE - 1) / CHUNK_SIZE ∧
    (∀ k, k < (sendChunkReports S 0).length →
      (sendChunkReports S 0).getD k 0 = (k + 1) * CHUNK_SIZE) ∧
    (sendChunkReports S 0).getLast? =
      some (((S + CHUNK_SIZE - 1) / CHUNK_SIZE) * CHUNK_SIZE) ∧
    (S % CHUNK_SIZE ≠ 0 →
      ((S + CHUNK_SIZE - 1) / CHUNK_SIZE) * CHUNK_SIZE > S) := by
  have hlen : (sendChunkReports S 0).length =
      (S + CHUNK_SIZE - 1) / CHUNK_SIZE := by
    rw [sendChunkReports_length]
    simp
  have hget : ∀ k, k < (sendChunkReports S 0).length →
      (sendChunkReports S 0).getD k 0 = (k + 1) * CHUNK_SIZE := by
    intro k hk
    rw [sendChunkReports_getD S 0 k hk]
    simp only [CHUNK_SIZE]
    omega
  refine ⟨hlen, hget, ?_, ?_⟩
  · have hpos : 0 < (sendChunkReports S 0).length := by
      rw [hlen]
      simp only [CHUNK_SIZE]
      omega
    rw [List.getLast?_eq_getElem?, List.getElem?_eq_getElem (by omega :
      (sendChunkReports S 0).length - 1 < (sendChunkReports S 0).length)]
    have hg := hget ((sendChunkReports S 0).length - 1) (by omega)
    rw [List.getD_eq_getElem?_getD, List.getElem?_eq_getElem (by omega :
      (sendChunkReports S 0).length - 1 <
        (sendChunkReports S 0).length)] at hg
    simp only [Option.getD_some] at hg
    have hp2 : 0 < (S + CHUNK_SIZE - 1) / CHUNK_SIZE := by
      rw [← hlen]
      exact hpos
    rw [hg]
    simp only [hlen, Option.some.injEq, CHUNK_SIZE]
    simp only [CHUNK_SIZE] at hp2
    omega
  · intro hmod
    simp only [CHUNK_SIZE] at *
    omega

/-- C10 witness: a 100-byte file has its final progress reported as 16384
bytes sent, exceeding the 100-byte total. -/
theorem sendFile_progress_uncapped_witness :
    (sendChunkReports 100 0).getLast? = some 16384 ∧ 16384 > 100 := by
  obtain ⟨-, -, hlast, hgt⟩ := sendFile_progress_uncapped 100 (by decide)
  constructor
  · rw [hlast]
    decide
  · exact hgt (by decide)

end XtransS
